import Mathlib

/-!
A verification development for the core numeric subsystem of the yoyodyne
sequence-to-sequence toolkit: vocabulary indexing (`special.py`, `indexes.py`),
batched sequence finalization and exact-match evaluation (`evaluators.py`),
and the label-smoothed negative-log-likelihood loss (`models/base.py`).

Python floats are modelled as rationals, Python integers as `Nat`/`Int`,
tensors as (rectangular) lists of lists, and raised exceptions as the
`Except` monad.
-/

set_option autoImplicit false

namespace Yoyodyne

/-! ### special.py -/

def PAD : String := "<P>"
def START : String := "<S>"
def END : String := "<E>"
def UNK : String := "<UNK>"
def MASK : String := "<MASK>"
def TASK1 : String := "<TASK1>"
def TASK2 : String := "<TASK2>"

def SPECIAL : List String := [UNK, PAD, START, END, MASK, TASK1, TASK2]

/-! ### indexes.py: SymbolMap

`SymbolMap.__init__` stores `special.SPECIAL + vocabulary` as `_index2symbol`
and builds `_symbol2index` as the Python dict comprehension
`{c: i for i, c in enumerate(self._index2symbol)}`.  A Python dict is
modelled as a function `String → Option Nat` built by successive updates in
enumeration order, so a later binding of the same key overwrites an earlier
one, exactly as in CPython.
-/

structure SymbolMap where
  index2symbol : List String

/-- `SymbolMap(vocabulary)`: `self._index2symbol = special.SPECIAL + vocabulary`. -/
def SymbolMap.init (vocabulary : List String) : SymbolMap :=
  ⟨SPECIAL ++ vocabulary⟩

/-- A single dict binding `d[ic.2] = ic.1`: an update of the lookup function. -/
def dictUpd (d : String → Option Nat) (ic : Nat × String) : String → Option Nat :=
  fun s => if s = ic.2 then some ic.1 else d s

/-- The dict `{c: i for i, c in enumerate(self._index2symbol)}`, then looked
up at a key: a fold of single-key updates over the enumerated symbol list. -/
def SymbolMap.symbol2index (m : SymbolMap) : String → Option Nat :=
  m.index2symbol.enum.foldl dictUpd (fun _ => none)

/-- `len(SymbolMap)`: the length of `_index2symbol`. -/
def SymbolMap.len (m : SymbolMap) : Nat :=
  m.index2symbol.length

/-- `SymbolMap.index(symbol, unk_idx=None)`:
`self._symbol2index.get(symbol, unk_idx)`.  The result is `Option Nat`
because the Python default `unk_idx` may itself be `None`. -/
def SymbolMap.index (m : SymbolMap) (symbol : String) (unk_idx : Option Nat) :
    Option Nat :=
  match m.symbol2index symbol with
  | some i => some i
  | none => unk_idx

/-- `SymbolMap.symbol(index)`: `self._index2symbol[index]`, with CPython list
subscript semantics: a nonnegative index in `[0, len)` reads directly, a
negative index in `[-len, 0)` reads from the end, and anything else raises
`IndexError` (modelled as `Except.error`). -/
def SymbolMap.symbol (m : SymbolMap) (index : Int) : Except Unit String :=
  let n : Int := (m.index2symbol.length : Int)
  if 0 ≤ index ∧ index < n then
    .ok (m.index2symbol.getD index.toNat "")
  else if -n ≤ index ∧ index < 0 then
    .ok (m.index2symbol.getD (index + n).toNat "")
  else
    .error ()

/-- Reference description of dict lookup after enumeration: the index of the
LAST occurrence of `s` in the list, offset by `n`.  Later bindings win, so
the recursion prefers the result from the tail. -/
def dictFind (n : Nat) : List String → String → Option Nat
  | [], _ => none
  | c :: cs, s =>
    match dictFind (n + 1) cs s with
    | some j => some j
    | none => if c = s then some n else none

/-! ### indexes.py: IndexNoFeatures and IndexFeatures -/

structure IndexNoFeatures where
  source_map : SymbolMap
  target_map : SymbolMap

/-- `IndexNoFeatures(source_vocabulary, target_vocabulary)`. -/
def IndexNoFeatures.init (source_vocabulary target_vocabulary : List String) :
    IndexNoFeatures :=
  ⟨SymbolMap.init source_vocabulary, SymbolMap.init target_vocabulary⟩

def IndexNoFeatures.source_vocab_size (i : IndexNoFeatures) : Nat :=
  i.source_map.len

def IndexNoFeatures.target_vocab_size (i : IndexNoFeatures) : Nat :=
  i.target_map.len

def IndexNoFeatures.pad_idx (i : IndexNoFeatures) : Option Nat :=
  i.source_map.index PAD none

def IndexNoFeatures.start_idx (i : IndexNoFeatures) : Option Nat :=
  i.source_map.index START none

def IndexNoFeatures.end_idx (i : IndexNoFeatures) : Option Nat :=
  i.source_map.index END none

def IndexNoFeatures.unk_idx (i : IndexNoFeatures) : Option Nat :=
  i.source_map.index UNK none

def IndexNoFeatures.mask_idx (i : IndexNoFeatures) : Option Nat :=
  i.source_map.index MASK none

def IndexNoFeatures.task1_idx (i : IndexNoFeatures) : Option Nat :=
  i.source_map.index TASK1 none

def IndexNoFeatures.task2_idx (i : IndexNoFeatures) : Option Nat :=
  i.source_map.index TASK2 none

/-- `IndexFeatures`: the subclass state after `__init__` ran.  The parent
constructor is called on `source_vocabulary + features_vocabulary`, and only
afterwards is `self.features_idx = self.source_vocab_size` evaluated — at
which point `source_vocab_size` is the size of the COMBINED map. -/
structure IndexFeatures where
  source_map : SymbolMap
  target_map : SymbolMap
  features_idx : Nat

def IndexFeatures.init
    (source_vocabulary features_vocabulary target_vocabulary : List String) :
    IndexFeatures :=
  let base :=
    IndexNoFeatures.init (source_vocabulary ++ features_vocabulary)
      target_vocabulary
  ⟨base.source_map, base.target_map, base.source_vocab_size⟩

/-- `features_vocab_size`: `len(self.source_map) - self.features_idx`. -/
def IndexFeatures.features_vocab_size (i : IndexFeatures) : Nat :=
  i.source_map.len - i.features_idx

/-! ### evaluators.py: EvalItem and Evaluator

Tensors of integer indices are modelled as lists of rows together with the
second dimension (`size(1)`); a tensor is well-formed (`Tensor2.WF`) when
every row has that length.  The exception raised by `Evaluator.evaluate`
on a batch-size mismatch, and the `IndexError` that `pads[0] = end_idx`
raises on a zero-length `pads` tensor, are modelled with `Except`.
-/

structure EvalItem where
  num_correct : Nat
  num_predicted : Nat
deriving DecidableEq

/-- `EvalItem.__add__`: sums along both attributes. -/
def EvalItem.add (e other_eval : EvalItem) : EvalItem :=
  ⟨e.num_correct + other_eval.num_correct,
   e.num_predicted + other_eval.num_predicted⟩

/-- The index of the first element equal to `e`, as computed by
`(x == end_idx).nonzero(as_tuple=False)` followed by taking entry `[0]`. -/
def firstIdx (e : Nat) : List Nat → Option Nat
  | [] => none
  | c :: cs => if c = e then some 0 else (firstIdx e cs).map (· + 1)

/-- The tail of the loop body of `Evaluator.finalize_predictions`:
`chars, *_ = torch.split(x, EOS)` keeps the first `q` entries, `pads` is the
remainder filled with `pad_idx`, and `pads[0] = end_idx` overwrites the
first pad with the end marker — raising `IndexError` (modelled as
`Except.error`) when `pads` is empty. -/
def finalizeSplit (end_idx pad_idx : Nat) (x : List Nat) (q : Nat) :
    Except Unit (List Nat) :=
  if x.length - (x.take q).length = 0 then
    .error ()
  else
    .ok (x.take q
      ++ end_idx :: List.replicate (x.length - (x.take q).length - 1) pad_idx)

/-- The loop body of `Evaluator.finalize_predictions` for one row `x`:
no `end_idx` in `x` (or, vacuously, a first occurrence not below `len(x)`)
leaves the row alone; otherwise the occurrence index is patched from `0` to
`1` (the source's hack for an initial EOS) and the split-and-pad step runs. -/
def finalizeRow (end_idx pad_idx : Nat) (x : List Nat) :
    Except Unit (List Nat) :=
  match firstIdx end_idx x with
  | none => .ok x
  | some p =>
    if p < x.length then
      finalizeSplit end_idx pad_idx x (if p = 0 then 1 else p)
    else
      .ok x

/-- `List.mapM` specialised to `Except`, written out so that inductive proofs
can unfold it directly; models the Python `for` loop writing back row `i`
(an exception raised mid-loop means no value is returned). -/
def mapExcept {α β ε : Type} (f : α → Except ε β) : List α → Except ε (List β)
  | [] => .ok []
  | a :: as =>
    match f a with
    | .error e => .error e
    | .ok b =>
      match mapExcept f as with
      | .error e => .error e
      | .ok bs => .ok (b :: bs)

/-- `Evaluator.finalize_predictions(predictions, end_idx, pad_idx)`: returns
the batch unchanged when the batch size is 1, else rewrites each row. -/
def finalize_predictions (predictions : List (List Nat))
    (end_idx pad_idx : Nat) : Except Unit (List (List Nat)) :=
  if predictions.length = 1 then
    .ok predictions
  else
    mapExcept (finalizeRow end_idx pad_idx) predictions

/-- A two-dimensional integer tensor: rows plus the stored `size(1)`. -/
structure Tensor2 where
  rows : List (List Nat)
  width : Nat

/-- Rectangularity: every row has length `size(1)`. -/
def Tensor2.WF (t : Tensor2) : Prop :=
  ∀ r ∈ t.rows, r.length = t.width

/-- `Evaluator.get_eval_item(predictions, golds, pad_idx)`: reconciles the
prediction width against the gold width (truncating on the right, or padding
on the right with `pad_idx`), then counts rows that agree elementwise with
the gold row (`(predictions == golds).all(dim=1)`). -/
def get_eval_item (predictions golds : Tensor2) (pad_idx : Nat) : EvalItem :=
  let preds : Tensor2 :=
    if golds.width < predictions.width then
      ⟨predictions.rows.map (fun r => r.take golds.width), golds.width⟩
    else if predictions.width < golds.width then
      ⟨predictions.rows.map
        (fun r => r ++ List.replicate (golds.width - predictions.width) pad_idx),
       golds.width⟩
    else
      predictions
  let corr_count :=
    ((preds.rows.zip golds.rows).filter (fun pg => pg.1 = pg.2)).length
  ⟨corr_count, preds.rows.length⟩

/-- The spec's per-row length reconciliation: "if predicted length exceeds
reference length, truncate the tail of predictions to reference length; if
shorter, right-pad predictions with the pad index up to reference length." -/
def reconcileRow (refWidth pad_idx : Nat) (r : List Nat) : List Nat :=
  if refWidth < r.length then r.take refWidth
  else r ++ List.replicate (refWidth - r.length) pad_idx

/-- The index of the first maximal entry of a list of scores, as returned by
`torch.max(..., dim=2)` (first maximal index). -/
def argmaxIdx : List ℚ → Nat
  | [] => 0
  | a :: rest =>
    if rest = [] then 0
    else if a < rest.getD (argmaxIdx rest) 0 then argmaxIdx rest + 1
    else 0

/-- A three-dimensional score tensor: `batch × vocab_size × seq_len`. -/
structure Tensor3 where
  batches : List (List (List ℚ))
  vocab_size : Nat
  seq_len : Nat

/-- The exceptions `Evaluator.evaluate` can surface: the explicit
batch-size-mismatch `Error` (with its message), or the `IndexError`
propagated out of `finalize_predictions`. -/
inductive EvalError where
  | mismatch (msg : String)
  | indexError

/-- The message of the batch-size-mismatch `Error`.  The source passes a
plain (non-f-string) literal, so the braced expressions appear verbatim in
the message. -/
def mismatchMessage : String :=
  "Preds batch size (\x7bpredictions.size(0)\x7d) and golds batch size (\x7bgolds.size(0)\x7d do not match"

/-- `Evaluator.evaluate(predictions, golds, end_idx, pad_idx)`: checks the
batch sizes, transposes to `B × seq_len × vocab_size`, takes the argmax over
the vocabulary axis, finalizes, and scores. -/
def evaluate (predictions : Tensor3) (golds : Tensor2)
    (end_idx pad_idx : Nat) : Except EvalError EvalItem :=
  if predictions.batches.length ≠ golds.rows.length then
    .error (.mismatch mismatchMessage)
  else
    let collapsed : List (List Nat) :=
      predictions.batches.map (fun scores => (List.transpose scores).map argmaxIdx)
    match finalize_predictions collapsed end_idx pad_idx with
    | .error _ => .error .indexError
    | .ok finalized =>
      .ok (get_eval_item ⟨finalized, predictions.seq_len⟩ golds pad_idx)

/-! ### models/base.py: the loss functions

`_smooth_nllloss` first reshapes its `B × vocab_size × seq_len` input to
`(B * seq_len) × output_size` (one row per `(batch, timestep)` pair) and
flattens the target to `B * seq_len` labels; we embed the function on this
flattened form, with `predictions` the per-`(batch, timestep)` log-probability
rows in order and `target` the flattened gold labels.  `gather` on an
in-range label reads `row[label]`, modelled as `List.getD` (the model-output
contract guarantees labels below `output_size`).  `mean` of a row count `n`
is `sum / n`; log-probabilities are modelled as rationals.
-/

/-- `_smooth_nllloss(predictions, target)` with configuration
`output_size`, `pad_idx`, and `label_smoothing`: masks the pad-labelled
rows, then blends the negative mean gathered log-probability with the
negative mean total log-probability divided by the vocabulary size. -/
def smooth_nllloss (output_size pad_idx : Nat) (label_smoothing : ℚ)
    (predictions : List (List ℚ)) (target : List Nat) : ℚ :=
  let pairs := predictions.zip target
  let non_pad := pairs.filter (fun pt => pt.2 ≠ pad_idx)
  let nll_loss : ℚ :=
    -(((non_pad.map (fun pt => pt.1.getD pt.2 0)).sum) / (non_pad.length : ℚ))
  let smooth_loss : ℚ :=
    (-(((non_pad.map (fun pt => pt.1.sum)).sum) / (non_pad.length : ℚ)))
      / (output_size : ℚ)
  (1 - label_smoothing) * nll_loss + label_smoothing * smooth_loss

/-- Modelled from the spec: the plain-mode loss is the external collaborator
`nn.NLLLoss(ignore_index=pad_idx, reduction="mean")` — "standard negative
log-likelihood averaged over all non-pad reference positions across the
whole batch; pad positions contribute zero loss and are excluded from the
averaging denominator". -/
def nllLossMean (pad_idx : Nat)
    (predictions : List (List ℚ)) (target : List Nat) : ℚ :=
  let non_pad := (predictions.zip target).filter (fun pt => pt.2 ≠ pad_idx)
  ((non_pad.map (fun pt => -(pt.1.getD pt.2 0))).sum) / (non_pad.length : ℚ)

/-- The spec's blended loss for a single unmasked `(batch, timestep)` row:
`(1 - α) * (-log_prob[row, label]) + α * (-(sum_over_vocab log_prob) / vocab_size)`. -/
def specRowLoss (output_size : Nat) (α : ℚ) (row : List ℚ) (label : Nat) : ℚ :=
  (1 - α) * (-(row.getD label 0))
    + α * (-(row.sum) / (output_size : ℚ))

/-- The spec's smoothed loss, phrased as the mean over unmasked rows of the
per-row blended loss. -/
def specSmoothedLoss (output_size pad_idx : Nat) (α : ℚ)
    (predictions : List (List ℚ)) (target : List Nat) : ℚ :=
  let unmasked := (predictions.zip target).filter (fun pt => pt.2 ≠ pad_idx)
  ((unmasked.map (fun pt => specRowLoss output_size α pt.1 pt.2)).sum)
    / (unmasked.length : ℚ)

/-! ## Helper lemmas -/

theorem dictFind_of_not_mem {s : String} {l : List String} (n : Nat)
    (h : s ∉ l) : dictFind n l s = none := by
  induction l generalizing n with
  | nil => rfl
  | cons c cs ih =>
    have hcs : s ∉ cs := fun hm => h (List.mem_cons_of_mem _ hm)
    have hc : c ≠ s := fun e => h (e ▸ List.mem_cons_self _ _)
    simp [dictFind, ih (n + 1) hcs, hc]

theorem dictFind_append_of_not_mem_right {s : String} {xs ys : List String}
    (n : Nat) (h : s ∉ ys) :
    dictFind n (xs ++ ys) s = dictFind n xs s := by
  induction xs generalizing n with
  | nil => simp [dictFind, dictFind_of_not_mem n h]
  | cons c cs ih => simp [dictFind, ih (n + 1)]

theorem foldl_enumFrom_dict (l : List String) (n : Nat)
    (d : String → Option Nat) (s : String) :
    ((List.enumFrom n l).foldl dictUpd d) s
      = match dictFind n l s with
        | some j => some j
        | none => d s := by
  induction l generalizing n d with
  | nil => rfl
  | cons c cs ih =>
    show ((List.enumFrom (n + 1) cs).foldl dictUpd (dictUpd d (n, c))) s = _
    rw [ih]
    by_cases hcs : ∃ j, dictFind (n + 1) cs s = some j
    · obtain ⟨j, hj⟩ := hcs
      simp [dictFind, hj]
    · have hnone : dictFind (n + 1) cs s = none := by
        cases h : dictFind (n + 1) cs s with
        | none => rfl
        | some j => exact absurd ⟨j, h⟩ hcs
      by_cases hc : c = s
      · simp [dictFind, hnone, hc, dictUpd]
      · have hsc : ¬ s = c := fun e => hc e.symm
        simp [dictFind, hnone, hc, hsc, dictUpd]

/-- The dict built from the enumeration answers with the index of the last
occurrence of the symbol. -/
theorem symbol2index_eq_dictFind (m : SymbolMap) (s : String) :
    m.symbol2index s = dictFind 0 m.index2symbol s := by
  show ((List.enumFrom 0 m.index2symbol).foldl dictUpd (fun _ => none)) s = _
  rw [foldl_enumFrom_dict]
  cases h : dictFind 0 m.index2symbol s <;> simp

theorem dictFind_shift (l : List String) (s : String) :
    ∀ n : Nat, dictFind n l s = (dictFind 0 l s).map (· + n) := by
  induction l with
  | nil => intro n; rfl
  | cons c cs ih =>
    intro n
    simp only [dictFind, ih (n + 1), ih 1]
    cases hcs : dictFind 0 cs s with
    | some j =>
      simp only [Option.map_some']
      have : j + (n + 1) = j + 1 + n := by omega
      simp [this]
    | none =>
      simp only [Option.map_none']
      by_cases hc : c = s
      · simp [hc]
      · simp [hc]

/-- Lookup in the enumeration dict lands on the LAST occurrence: the found
index holds the symbol and no later position does. -/
theorem dictFind_mem_spec (s : String) :
    ∀ l : List String, s ∈ l →
      ∃ j, dictFind 0 l s = some j ∧ l.get? j = some s
        ∧ s ∉ l.drop (j + 1) := by
  intro l
  induction l with
  | nil => intro h; cases h
  | cons c cs ih =>
    intro h
    by_cases hm : s ∈ cs
    · obtain ⟨j, hj, hget, hdrop⟩ := ih hm
      refine ⟨j + 1, ?_, ?_, ?_⟩
      · simp only [dictFind, dictFind_shift cs s 1, hj, Option.map_some']
      · simpa using hget
      · simpa using hdrop
    · have hc : c = s := by
        cases h with
        | head => rfl
        | tail _ h2 => exact absurd h2 hm
      refine ⟨0, ?_, ?_, ?_⟩
      · simp only [dictFind, dictFind_of_not_mem 1 hm, if_pos hc]
      · simp [hc]
      · simpa using hm

/-- A reserved-symbol lookup ignores a user vocabulary that avoids the
reserved symbols. -/
theorem index_special (src : List String) (s : String) (hs : s ∉ src) :
    (SymbolMap.init src).index s none = dictFind 0 SPECIAL s := by
  unfold SymbolMap.index
  rw [symbol2index_eq_dictFind]
  show (match dictFind 0 (SPECIAL ++ src) s with
        | some i => some i
        | none => none) = dictFind 0 SPECIAL s
  rw [dictFind_append_of_not_mem_right 0 hs]
  cases hfind : dictFind 0 SPECIAL s <;> simp

theorem sum_map_neg {α : Type} (l : List α) (f : α → ℚ) :
    (l.map (fun x => -(f x))).sum = -((l.map f).sum) := by
  induction l with
  | nil => simp
  | cons a as ih => simp [ih]; ring

theorem sum_map_add {α : Type} (l : List α) (f g : α → ℚ) :
    (l.map (fun x => f x + g x)).sum = (l.map f).sum + (l.map g).sum := by
  induction l with
  | nil => simp
  | cons a as ih => simp [ih]; ring

theorem sum_map_mul_left {α : Type} (l : List α) (c : ℚ) (f : α → ℚ) :
    (l.map (fun x => c * f x)).sum = c * (l.map f).sum := by
  induction l with
  | nil => simp
  | cons a as ih => simp [ih]; ring

theorem sum_map_div {α : Type} (l : List α) (c : ℚ) (f : α → ℚ) :
    (l.map (fun x => f x / c)).sum = (l.map f).sum / c := by
  induction l with
  | nil => simp
  | cons a as ih => simp [ih]; ring

theorem firstIdx_lt_length {e : Nat} :
    ∀ {x : List Nat} {i : Nat}, firstIdx e x = some i → i < x.length := by
  intro x
  induction x with
  | nil => intro i h; simp [firstIdx] at h
  | cons c cs ih =>
    intro i h
    simp only [firstIdx] at h
    by_cases hc : c = e
    · rw [if_pos hc] at h
      cases h
      simp
    · rw [if_neg hc] at h
      cases hf : firstIdx e cs with
      | none => rw [hf] at h; simp at h
      | some j =>
        rw [hf] at h
        simp only [Option.map_some'] at h
        cases h
        have := ih hf
        simp only [List.length_cons]
        omega

theorem firstIdx_zero_head {e : Nat} {x : List Nat}
    (h : firstIdx e x = some 0) : ∃ xs, x = e :: xs := by
  cases x with
  | nil => simp [firstIdx] at h
  | cons c cs =>
    by_cases hc : c = e
    · exact ⟨cs, by rw [hc]⟩
    · simp only [firstIdx, if_neg hc] at h
      cases hf : firstIdx e cs <;> simp [hf] at h

theorem firstIdx_not_mem_take {e : Nat} :
    ∀ {x : List Nat} {i : Nat}, firstIdx e x = some i → e ∉ x.take i := by
  intro x
  induction x with
  | nil => intro i h; simp [firstIdx] at h
  | cons c cs ih =>
    intro i h
    simp only [firstIdx] at h
    by_cases hc : c = e
    · rw [if_pos hc] at h
      cases h
      simp
    · rw [if_neg hc] at h
      cases hf : firstIdx e cs with
      | none => rw [hf] at h; simp at h
      | some j =>
        rw [hf] at h
        simp only [Option.map_some'] at h
        cases h
        intro hmem
        simp only [List.take_succ_cons, List.mem_cons] at hmem
        rcases hmem with hmem | hmem
        · exact hc hmem.symm
        · exact ih hf hmem

theorem firstIdx_append_cons (e : Nat) (bs : List Nat) :
    ∀ as : List Nat, e ∉ as → firstIdx e (as ++ e :: bs) = some as.length := by
  intro as
  induction as with
  | nil => intro _; simp [firstIdx]
  | cons c cs ih =>
    intro h
    have hc : ¬ c = e := fun hce => h (hce ▸ List.mem_cons_self _ _)
    have hcs : e ∉ cs := fun hm => h (List.mem_cons_of_mem _ hm)
    simp only [List.cons_append, firstIdx, if_neg hc, List.append_eq, ih hcs,
      Option.map_some', List.length_cons]

theorem mapExcept_ok_length {α β ε : Type} {f : α → Except ε β} :
    ∀ {l : List α} {r : List β}, mapExcept f l = .ok r → r.length = l.length := by
  intro l
  induction l with
  | nil =>
    intro r h
    simp only [mapExcept] at h
    cases h
    rfl
  | cons a as ih =>
    intro r h
    simp only [mapExcept] at h
    cases hfa : f a with
    | error err => rw [hfa] at h; cases h
    | ok b =>
      rw [hfa] at h
      cases hrest : mapExcept f as with
      | error err => rw [hrest] at h; cases h
      | ok bs =>
        rw [hrest] at h
        cases h
        simp [ih hrest]

theorem mapExcept_ok_get {α β ε : Type} {f : α → Except ε β} :
    ∀ {l : List α} {r : List β} {i : Nat} {x : α},
      mapExcept f l = .ok r → l.get? i = some x →
      ∃ y, r.get? i = some y ∧ f x = .ok y := by
  intro l
  induction l with
  | nil => intro r i x _ hg; simp at hg
  | cons a as ih =>
    intro r i x h hg
    simp only [mapExcept] at h
    cases hfa : f a with
    | error err => rw [hfa] at h; cases h
    | ok b =>
      rw [hfa] at h
      cases hrest : mapExcept f as with
      | error err => rw [hrest] at h; cases h
      | ok bs =>
        rw [hrest] at h
        cases h
        cases i with
        | zero =>
          simp only [List.get?] at hg
          cases hg
          exact ⟨b, rfl, hfa⟩
        | succ n =>
          simp only [List.get?] at hg ⊢
          exact ih hrest hg

theorem mapExcept_idem {α ε : Type} {f : α → Except ε α}
    (hf : ∀ a b, f a = .ok b → f b = .ok b) :
    ∀ {l r : List α}, mapExcept f l = .ok r → mapExcept f r = .ok r := by
  intro l
  induction l with
  | nil =>
    intro r h
    simp only [mapExcept] at h
    cases h
    rfl
  | cons a as ih =>
    intro r h
    simp only [mapExcept] at h
    cases hfa : f a with
    | error err => rw [hfa] at h; cases h
    | ok b =>
      rw [hfa] at h
      cases hrest : mapExcept f as with
      | error err => rw [hrest] at h; cases h
      | ok bs =>
        rw [hrest] at h
        cases h
        simp only [mapExcept, hf a b hfa, ih hrest]

theorem finalizeSplit_eq {e p : Nat} (x : List Nat) {q : Nat}
    (hq : q ≤ x.length) :
    finalizeSplit e p x q
      = if x.length - q = 0 then .error ()
        else .ok (x.take q ++ e :: List.replicate (x.length - q - 1) p) := by
  unfold finalizeSplit
  rw [List.length_take, min_eq_left hq]

/-- A row already rewritten by the finalizer is a fixpoint of the
per-row finalization. -/
theorem finalizeRow_idem (end_idx pad_idx : Nat) {x y : List Nat}
    (h : finalizeRow end_idx pad_idx x = .ok y) :
    finalizeRow end_idx pad_idx y = .ok y := by
  cases hf : firstIdx end_idx x with
  | none =>
    simp only [finalizeRow, hf] at h
    cases h
    simp only [finalizeRow, hf]
  | some p =>
    have hp : p < x.length := firstIdx_lt_length hf
    simp only [finalizeRow, hf] at h
    rw [if_pos hp] at h
    by_cases hp0 : p = 0
    · subst hp0
      obtain ⟨xs, hx⟩ := firstIdx_zero_head hf
      have hq1 : 1 ≤ x.length := hp
      rw [if_pos rfl, finalizeSplit_eq x hq1] at h
      by_cases hz : x.length - 1 = 0
      · rw [if_pos hz] at h; cases h
      · rw [if_neg hz] at h
        cases h
        have htake : x.take 1 = [end_idx] := by rw [hx]; rfl
        rw [htake]
        have hL : 2 ≤ x.length := by omega
        set Y : List Nat :=
          [end_idx] ++ end_idx :: List.replicate (x.length - 1 - 1) pad_idx
          with hYdef
        have hfy : firstIdx end_idx Y = some 0 := by
          rw [hYdef]; simp [firstIdx]
        have hylen : Y.length = x.length := by
          rw [hYdef]
          simp only [List.length_append, List.length_cons,
            List.length_replicate, List.length_singleton, List.length_nil]
          omega
        simp only [finalizeRow, hfy, if_true]
        rw [if_pos (show 0 < Y.length by omega)]
        rw [finalizeSplit_eq Y (show 1 ≤ Y.length by omega), hylen,
          if_neg hz]
        rw [show Y.take 1 = [end_idx] from by rw [hYdef]; simp]
    · have hq : p ≤ x.length := hp.le
      rw [if_neg hp0, finalizeSplit_eq x hq] at h
      by_cases hz : x.length - p = 0
      · rw [if_pos hz] at h; cases h
      · rw [if_neg hz] at h
        cases h
        have hnm : end_idx ∉ x.take p := firstIdx_not_mem_take hf
        have hchl : (x.take p).length = p := by
          rw [List.length_take, min_eq_left hq]
        set Y : List Nat :=
          x.take p ++ end_idx :: List.replicate (x.length - p - 1) pad_idx
          with hYdef
        have hfy : firstIdx end_idx Y = some p := by
          rw [hYdef, firstIdx_append_cons _ _ _ hnm, hchl]
        have hylen : Y.length = x.length := by
          rw [hYdef]
          simp only [List.length_append, List.length_cons,
            List.length_replicate, hchl]
          omega
        simp only [finalizeRow, hfy]
        rw [if_neg hp0]
        rw [if_pos (show p < Y.length by omega)]
        rw [finalizeSplit_eq Y (show p ≤ Y.length by omega), hylen,
          if_neg hz]
        rw [show Y.take p = x.take p from by
          rw [hYdef]
          have htl := List.take_left (x.take p)
            (end_idx :: List.replicate (x.length - p - 1) pad_idx)
          rw [hchl] at htl
          exact htl]

/-! ## The claims -/

/-- C2: the spec requires `features_idx` to be the source vocabulary size of
the non-feature-augmented index (here `8`, for a one-symbol source
vocabulary) and `features_vocab_size` to be the feature vocabulary size
(here `1`); because `self.features_idx = self.source_vocab_size` is
evaluated after the source map was built from the concatenated
source-plus-feature vocabulary, the code instead yields `features_idx = 9`
(the combined map size), making `features_vocab_size` equal `0`. -/
theorem C2_features_idx_bug :
    (IndexFeatures.init ["a"] ["f"] []).features_idx = 9
    ∧ (IndexNoFeatures.init ["a"] []).source_vocab_size = 8
    ∧ (IndexFeatures.init ["a"] ["f"] []).features_vocab_size = 0 :=
  ⟨rfl, rfl, rfl⟩

/-- C7: `Evaluator.evaluate` raises its batch-size-mismatch `Error` exactly
when the batch dimensions differ (here `2` versus `3`), but the message —
a plain string literal that was evidently meant to be an f-string — contains
the unexpanded placeholder text and therefore does not report either batch
size: the digits `2` and `3` appear nowhere in it. -/
theorem C7_mismatch_message_bug :
    evaluate ⟨[[], []], 0, 0⟩ ⟨[[], [], []], 0⟩ 0 0
        = .error (.mismatch mismatchMessage)
    ∧ '2' ∉ mismatchMessage.data
    ∧ '3' ∉ mismatchMessage.data :=
  ⟨rfl, by decide, by decide⟩

/-- C5 counterexample: the claim quantifies over every vocabulary, but for
the vocabulary `["<P>"]` — a user symbol equal to the reserved pad symbol —
the dict rebinds `"<P>"` to its last occurrence, so `pad_idx` is `7`, not
the position `1` of the pad symbol in the reserved prefix. -/
theorem C5_counterexample :
    (IndexNoFeatures.init ["<P>"] []).pad_idx = some 7 ∧ (7 : Nat) ≠ 1 :=
  ⟨by decide, by decide⟩

/-- C6 counterexample: `symbol(-1)` does not raise, although `-1` lies
outside `[0, len)`: CPython list subscripts resolve negative indices from
the end, so the last reserved symbol is returned. -/
theorem C6_counterexample :
    (SymbolMap.init []).symbol (-1) = .ok "<TASK2>" ∧ ¬((0 : Int) ≤ -1) :=
  ⟨rfl, by decide⟩

/-- C1 counterexample: for the two-row batch `[[3, 5, 5], [4, 4, 4]]` with
end index `3` and pad index `1`, the first row has its first end marker at
position 0, and the claim says it becomes `[3, 1, 1]` (one kept position,
rest pad); the code instead produces `[3, 3, 1]` — the patched split point
keeps one position and then `pads[0] = end_idx` writes a second end marker
at position 1. -/
theorem C1_counterexample :
    finalize_predictions [[3, 5, 5], [4, 4, 4]] 3 1
        = .ok [[3, 3, 1], [4, 4, 4]]
    ∧ ([3, 3, 1] : List Nat) ≠ [3, 1, 1] :=
  ⟨rfl, by decide⟩

/-- C8: with smoothing coefficient `α = 0` the smoothed-mode loss coincides
exactly (not merely within tolerance) with the plain-mode loss, i.e. the
mean negative log-likelihood over non-pad positions. -/
theorem C8_alpha_zero_equals_plain (output_size pad_idx : Nat)
    (predictions : List (List ℚ)) (target : List Nat) :
    smooth_nllloss output_size pad_idx 0 predictions target
      = nllLossMean pad_idx predictions target := by
  simp only [smooth_nllloss, nllLossMean]
  rw [sum_map_neg, neg_div]
  ring

/-- C4: the smoothed-mode loss masks out the `(batch, timestep)` rows whose
reference label is the pad index — excising any all-pad reference segment
(in particular a reference row whose labels are all pad) leaves the loss
unchanged, so such a row contributes zero loss and does not enter the
averaging denominator — and over the unmasked rows the loss equals the
mean of the per-row blend `(1 - α) * nll + α * smooth`. -/
theorem C4_smooth_loss_mask_and_formula (output_size pad_idx : Nat) (α : ℚ)
    (P₁ Pm P₂ : List (List ℚ)) (t₁ tm t₂ : List Nat)
    (h₁ : P₁.length = t₁.length) (hm : Pm.length = tm.length)
    (hpad : ∀ l ∈ tm, l = pad_idx) :
    smooth_nllloss output_size pad_idx α (P₁ ++ (Pm ++ P₂)) (t₁ ++ (tm ++ t₂))
      = smooth_nllloss output_size pad_idx α (P₁ ++ P₂) (t₁ ++ t₂)
    ∧ ∀ (P : List (List ℚ)) (t : List Nat),
        smooth_nllloss output_size pad_idx α P t
          = specSmoothedLoss output_size pad_idx α P t := by
  constructor
  · have hmid : List.filter (fun pt => decide (pt.2 ≠ pad_idx)) (Pm.zip tm)
        = [] := by
      apply List.filter_eq_nil_iff.mpr
      intro pt hpt
      have hmem := (List.of_mem_zip hpt).2
      simp [hpad pt.2 hmem]
    have hfil : List.filter (fun pt => decide (pt.2 ≠ pad_idx))
          ((P₁ ++ (Pm ++ P₂)).zip (t₁ ++ (tm ++ t₂)))
        = List.filter (fun pt => decide (pt.2 ≠ pad_idx))
          ((P₁ ++ P₂).zip (t₁ ++ t₂)) := by
      rw [List.zip_append h₁, List.zip_append hm, List.zip_append h₁,
        List.filter_append, List.filter_append, List.filter_append, hmid]
      simp
    simp only [smooth_nllloss]
    rw [hfil]
  · intro P t
    simp only [smooth_nllloss, specSmoothedLoss, specRowLoss]
    simp only [sum_map_add, sum_map_mul_left, sum_map_div, sum_map_neg]
    ring

/-- C3: with rectangular inputs of equal batch size, `get_eval_item`
truncates or right-pads each predicted row to the reference width (the
reconciled row always has the reference width; the reference rows are used
as given), counts as correct exactly the rows whose reconciled prediction
equals the reference row elementwise, and reports the batch size as
`num_predicted`. -/
theorem C3_get_eval_item_correct (predictions golds : Tensor2) (pad_idx : Nat)
    (hp : predictions.WF) (hg : golds.WF)
    (hb : predictions.rows.length = golds.rows.length) :
    get_eval_item predictions golds pad_idx
      = ⟨((predictions.rows.zip golds.rows).filter
            (fun pg => reconcileRow golds.width pad_idx pg.1 = pg.2)).length,
         predictions.rows.length⟩
    ∧ ∀ r ∈ predictions.rows,
        (reconcileRow golds.width pad_idx r).length = golds.width := by
  constructor
  · simp only [get_eval_item]
    by_cases h1 : golds.width < predictions.width
    · rw [if_pos h1]
      simp only [List.length_map]
      rw [List.zip_map_left, List.filter_map]
      simp only [List.length_map]
      congr 2
      apply List.filter_congr
      intro pg hpg
      obtain ⟨a, b⟩ := pg
      have hlen : a.length = predictions.width := hp a (List.of_mem_zip hpg).1
      have hrec : reconcileRow golds.width pad_idx a = a.take golds.width := by
        unfold reconcileRow
        rw [if_pos (by omega)]
      simp [Function.comp, Prod.map, hrec]
    · rw [if_neg h1]
      by_cases h2 : predictions.width < golds.width
      · rw [if_pos h2]
        simp only [List.length_map]
        rw [List.zip_map_left, List.filter_map]
        simp only [List.length_map]
        congr 2
        apply List.filter_congr
        intro pg hpg
        obtain ⟨a, b⟩ := pg
        have hlen : a.length = predictions.width := hp a (List.of_mem_zip hpg).1
        have hrec : reconcileRow golds.width pad_idx a
            = a ++ List.replicate (golds.width - predictions.width) pad_idx := by
          unfold reconcileRow
          rw [if_neg (by omega), hlen]
        simp [Function.comp, Prod.map, hrec]
      · rw [if_neg h2]
        congr 2
        apply List.filter_congr
        intro pg hpg
        obtain ⟨a, b⟩ := pg
        have hlen : a.length = predictions.width := hp a (List.of_mem_zip hpg).1
        have hrec : reconcileRow golds.width pad_idx a = a := by
          unfold reconcileRow
          rw [if_neg (by omega)]
          have hz : golds.width - a.length = 0 := by omega
          rw [hz]
          simp
        simp [hrec]
  · intro r hr
    have hlen : r.length = predictions.width := hp r hr
    unfold reconcileRow
    by_cases h1 : golds.width < r.length
    · rw [if_pos h1]
      rw [List.length_take]
      omega
    · rw [if_neg h1]
      rw [List.length_append, List.length_replicate]
      omega

/-- C4 witness: a concrete batch with one unmasked row and one all-pad row;
excising the all-pad row leaves the smoothed loss unchanged. -/
theorem C4_witness :
    ([[(0 : ℚ), -1]].length = [(0 : Nat)].length)
    ∧ ([[(-1 : ℚ), -1]].length = [(1 : Nat)].length)
    ∧ (∀ l ∈ [(1 : Nat)], l = 1)
    ∧ smooth_nllloss 2 1 (1 / 2)
        ([[(0 : ℚ), -1]] ++ ([[(-1 : ℚ), -1]] ++ [])) ([0] ++ ([1] ++ []))
        = smooth_nllloss 2 1 (1 / 2) ([[(0 : ℚ), -1]] ++ []) ([0] ++ []) :=
  ⟨by decide, by decide, by decide,
    (C4_smooth_loss_mask_and_formula 2 1 (1 / 2) [[(0 : ℚ), -1]]
      [[(-1 : ℚ), -1]] [] [0] [1] [] (by decide) (by decide) (by decide)).1⟩

/-- C3 witness: the spec's exact-match scenario — predictions
`[[2, 5, 3, 1, 1]]` against the identical reference (pad `1`) score one
match out of one. -/
theorem C3_witness :
    Tensor2.WF ⟨[[2, 5, 3, 1, 1]], 5⟩
    ∧ get_eval_item ⟨[[2, 5, 3, 1, 1]], 5⟩ ⟨[[2, 5, 3, 1, 1]], 5⟩ 1 = ⟨1, 1⟩ :=
  ⟨by unfold Tensor2.WF; decide,
    ((C3_get_eval_item_correct ⟨[[2, 5, 3, 1, 1]], 5⟩ ⟨[[2, 5, 3, 1, 1]], 5⟩ 1
      (by unfold Tensor2.WF; decide) (by unfold Tensor2.WF; decide) rfl).1).trans
      (by decide)⟩

/-- C9: applying `finalize_predictions` twice in a row yields the same
result as applying it once — a second application maps an error to the same
error and a finalized batch to itself, every finalized row being a fixpoint
of the per-row rewrite. -/
theorem C9_finalizer_idempotent (predictions : List (List Nat))
    (end_idx pad_idx : Nat) :
    (finalize_predictions predictions end_idx pad_idx).bind
        (fun r => finalize_predictions r end_idx pad_idx)
      = finalize_predictions predictions end_idx pad_idx := by
  unfold finalize_predictions
  by_cases h1 : predictions.length = 1
  · rw [if_pos h1]
    simp only [Except.bind]
    rw [if_pos h1]
  · rw [if_neg h1]
    cases he : mapExcept (finalizeRow end_idx pad_idx) predictions with
    | error err => simp only [Except.bind]
    | ok r =>
      simp only [Except.bind]
      have hlen : r.length = predictions.length := mapExcept_ok_length he
      rw [if_neg (show ¬ r.length = 1 by omega)]
      exact mapExcept_idem
        (fun a b hab => finalizeRow_idem end_idx pad_idx hab) he

/-- C1 (amended): in a batch with more than one row, a successfully
finalized row whose first end-marker occurrence is at position 0 comes out
with the end marker at positions 0 AND 1 and the pad index everywhere from
position 2 on — the kept prefix is two positions long, not one, because the
patched split point keeps one entry and `pads[0] = end_idx` writes a second
end marker; a length-1 such row makes the call fail instead. -/
theorem C1_amended_end_marker_first (predictions : List (List Nat))
    (end_idx pad_idx : Nat) (res : List (List Nat)) (i : Nat) (x : List Nat)
    (hb : 1 < predictions.length)
    (hok : finalize_predictions predictions end_idx pad_idx = .ok res)
    (hrow : predictions.get? i = some x)
    (hfirst : firstIdx end_idx x = some 0) :
    res.get? i
      = some (end_idx :: end_idx :: List.replicate (x.length - 2) pad_idx) := by
  unfold finalize_predictions at hok
  rw [if_neg (show ¬ predictions.length = 1 by omega)] at hok
  obtain ⟨y, hy, hrowok⟩ := mapExcept_ok_get hok hrow
  have hp : (0 : Nat) < x.length := firstIdx_lt_length hfirst
  simp only [finalizeRow, hfirst, if_true] at hrowok
  rw [if_pos hp, finalizeSplit_eq x (show 1 ≤ x.length by omega)] at hrowok
  by_cases hz : x.length - 1 = 0
  · rw [if_pos hz] at hrowok; cases hrowok
  · rw [if_neg hz] at hrowok
    obtain ⟨xs, hx⟩ := firstIdx_zero_head hfirst
    have htake : x.take 1 = [end_idx] := by rw [hx]; rfl
    rw [htake] at hrowok
    cases hrowok
    rw [hy]
    have harith : x.length - 1 - 1 = x.length - 2 := by omega
    rw [List.singleton_append, harith]

/-- C1 (amended) witness: the concrete batch `[[3, 5, 5], [4, 4, 4]]` with
end index `3` and pad index `1` finalizes its first row to `[3, 3, 1]`. -/
theorem C1_amended_witness :
    1 < ([[3, 5, 5], [4, 4, 4]] : List (List Nat)).length
    ∧ ([[3, 3, 1], [4, 4, 4]] : List (List Nat)).get? 0
        = some (3 :: 3 :: List.replicate (([3, 5, 5] : List Nat).length - 2) 1) :=
  ⟨by decide,
    C1_amended_end_marker_first [[3, 5, 5], [4, 4, 4]] 3 1
      [[3, 3, 1], [4, 4, 4]] 0 [3, 5, 5] (by decide) rfl rfl rfl⟩

/-- C10: when the reserved-plus-user symbol sequence contains a symbol more
than once, `index(symbol)` answers with the position of its LAST occurrence
— the found position holds the symbol, no later position does, and an
earlier occurrence exists (so the first occurrence is not the answer) —
because the dict comprehension lets later enumeration entries overwrite
earlier ones. -/
theorem C10_last_occurrence_wins (vocabulary : List String) (s : String)
    (u : Option Nat)
    (hdup : 2 ≤ List.count s (SPECIAL ++ vocabulary)) :
    ∃ j, (SymbolMap.init vocabulary).index s u = some j
      ∧ (SymbolMap.init vocabulary).index2symbol.get? j = some s
      ∧ s ∉ (SymbolMap.init vocabulary).index2symbol.drop (j + 1)
      ∧ s ∈ (SymbolMap.init vocabulary).index2symbol.take j := by
  have hmem : s ∈ SPECIAL ++ vocabulary :=
    List.count_pos_iff.mp (by omega)
  have hidx : (SymbolMap.init vocabulary).index2symbol
      = SPECIAL ++ vocabulary := rfl
  obtain ⟨j, hj, hget, hdrop⟩ :=
    dictFind_mem_spec s (SPECIAL ++ vocabulary) hmem
  refine ⟨j, ?_, ?_, ?_, ?_⟩
  · unfold SymbolMap.index
    rw [symbol2index_eq_dictFind]
    show (match dictFind 0 (SPECIAL ++ vocabulary) s with
          | some i => some i
          | none => u) = some j
    rw [hj]
  · rw [hidx]; exact hget
  · rw [hidx]; exact hdrop
  · rw [hidx]
    have htk : (SPECIAL ++ vocabulary).take (j + 1)
        = (SPECIAL ++ vocabulary).take j ++ [s] := by
      rw [List.take_succ, ← List.get?_eq_getElem?, hget]
      rfl
    have hsplit := List.take_append_drop (j + 1) (SPECIAL ++ vocabulary)
    have hd0 : List.count s ((SPECIAL ++ vocabulary).drop (j + 1)) = 0 :=
      List.count_eq_zero.mpr hdrop
    have hcount : List.count s (SPECIAL ++ vocabulary)
        = List.count s ((SPECIAL ++ vocabulary).take j) + 1 := by
      conv_lhs => rw [← hsplit]
      rw [List.count_append, htk, List.count_append, hd0,
        List.count_singleton]
      simp
    apply List.count_pos_iff.mp
    omega

/-- C10 witness: with user vocabulary `["<P>"]`, the pad symbol occurs at
positions 1 and 7, and lookup answers 7 (the last), not 1. -/
theorem C10_witness :
    2 ≤ List.count "<P>" (SPECIAL ++ ["<P>"])
    ∧ ∃ j, (SymbolMap.init ["<P>"]).index "<P>" none = some j
        ∧ (SymbolMap.init ["<P>"]).index2symbol.get? j = some "<P>"
        ∧ "<P>" ∉ (SymbolMap.init ["<P>"]).index2symbol.drop (j + 1)
        ∧ "<P>" ∈ (SymbolMap.init ["<P>"]).index2symbol.take j :=
  ⟨by decide, C10_last_occurrence_wins ["<P>"] "<P>" none (by decide)⟩

/-- C5 (amended): for any source vocabulary DISJOINT from the reserved
symbols, the seven reserved-index accessors answer the positions `0..6` of
their constant symbols in the reserved prefix — in particular they are
pairwise distinct; a user symbol equal to a reserved symbol breaks this
(see the counterexample), because the dict rebinds it to the later
occurrence. -/
theorem C5_amended_reserved_indices (src tgt : List String)
    (h : ∀ s ∈ SPECIAL, s ∉ src) :
    (IndexNoFeatures.init src tgt).unk_idx = some 0
    ∧ (IndexNoFeatures.init src tgt).pad_idx = some 1
    ∧ (IndexNoFeatures.init src tgt).start_idx = some 2
    ∧ (IndexNoFeatures.init src tgt).end_idx = some 3
    ∧ (IndexNoFeatures.init src tgt).mask_idx = some 4
    ∧ (IndexNoFeatures.init src tgt).task1_idx = some 5
    ∧ (IndexNoFeatures.init src tgt).task2_idx = some 6 := by
  refine ⟨?_, ?_, ?_, ?_, ?_, ?_, ?_⟩
  · show (SymbolMap.init src).index UNK none = some 0
    rw [index_special src UNK (h UNK (by decide))]; decide
  · show (SymbolMap.init src).index PAD none = some 1
    rw [index_special src PAD (h PAD (by decide))]; decide
  · show (SymbolMap.init src).index START none = some 2
    rw [index_special src START (h START (by decide))]; decide
  · show (SymbolMap.init src).index END none = some 3
    rw [index_special src END (h END (by decide))]; decide
  · show (SymbolMap.init src).index MASK none = some 4
    rw [index_special src MASK (h MASK (by decide))]; decide
  · show (SymbolMap.init src).index TASK1 none = some 5
    rw [index_special src TASK1 (h TASK1 (by decide))]; decide
  · show (SymbolMap.init src).index TASK2 none = some 6
    rw [index_special src TASK2 (h TASK2 (by decide))]; decide

/-- C5 (amended) witness: a one-symbol user vocabulary `["a"]` avoiding the
reserved symbols yields accessors `0..6`. -/
theorem C5_witness :
    (∀ s ∈ SPECIAL, s ∉ (["a"] : List String))
    ∧ ((IndexNoFeatures.init ["a"] []).unk_idx = some 0
      ∧ (IndexNoFeatures.init ["a"] []).pad_idx = some 1
      ∧ (IndexNoFeatures.init ["a"] []).start_idx = some 2
      ∧ (IndexNoFeatures.init ["a"] []).end_idx = some 3
      ∧ (IndexNoFeatures.init ["a"] []).mask_idx = some 4
      ∧ (IndexNoFeatures.init ["a"] []).task1_idx = some 5
      ∧ (IndexNoFeatures.init ["a"] []).task2_idx = some 6) :=
  ⟨by decide, C5_amended_reserved_indices ["a"] [] (by decide)⟩

/-- C6 (amended): `symbol(index)` fails exactly when `index` lies outside
`[-len, len)`; an index in `[0, len)` reads the symbol stored there, and a
negative index in `[-len, 0)` reads the symbol at `len + index`, per CPython
sequence-subscript semantics. -/
theorem C6_amended_symbol_lookup (m : SymbolMap) (index : Int) :
    (m.symbol index = .error ()
        ↔ index < -(m.len : Int) ∨ (m.len : Int) ≤ index)
    ∧ (0 ≤ index → index < (m.len : Int) →
        ∃ s, m.index2symbol.get? index.toNat = some s
          ∧ m.symbol index = .ok s)
    ∧ (-(m.len : Int) ≤ index → index < 0 →
        ∃ s, m.index2symbol.get? (index + (m.len : Int)).toNat = some s
          ∧ m.symbol index = .ok s) := by
  unfold SymbolMap.symbol SymbolMap.len
  refine ⟨⟨?_, ?_⟩, ?_, ?_⟩
  · intro he
    by_cases h1 : 0 ≤ index ∧ index < (m.index2symbol.length : Int)
    · rw [if_pos h1] at he; cases he
    · by_cases h2 : -(m.index2symbol.length : Int) ≤ index ∧ index < 0
      · rw [if_neg h1, if_pos h2] at he; cases he
      · push_neg at h1 h2
        omega
  · intro hrange
    have h1 : ¬(0 ≤ index ∧ index < (m.index2symbol.length : Int)) := by
      rcases hrange with h | h <;> (intro hc; omega)
    have h2 : ¬(-(m.index2symbol.length : Int) ≤ index ∧ index < 0) := by
      rcases hrange with h | h <;> (intro hc; omega)
    rw [if_neg h1, if_neg h2]
  · intro h0 hlt
    rw [if_pos ⟨h0, hlt⟩]
    have hnat : index.toNat < m.index2symbol.length := by omega
    refine ⟨m.index2symbol.get ⟨index.toNat, hnat⟩,
      List.get?_eq_get hnat, ?_⟩
    have hgd : m.index2symbol.getD index.toNat ""
        = m.index2symbol.get ⟨index.toNat, hnat⟩ := by
      rw [List.getD_eq_get?, List.get?_eq_get hnat]
      rfl
    rw [hgd]
  · intro hge hlt0
    have h1 : ¬(0 ≤ index ∧ index < (m.index2symbol.length : Int)) := by
      intro hc; omega
    rw [if_neg h1, if_pos ⟨hge, hlt0⟩]
    have hnat : (index + (m.index2symbol.length : Int)).toNat
        < m.index2symbol.length := by omega
    refine ⟨m.index2symbol.get ⟨_, hnat⟩, List.get?_eq_get hnat, ?_⟩
    have hgd : m.index2symbol.getD
          (index + (m.index2symbol.length : Int)).toNat ""
        = m.index2symbol.get ⟨_, hnat⟩ := by
      rw [List.getD_eq_get?, List.get?_eq_get hnat]
      rfl
    rw [hgd]

/-- C6 (amended) witness: on the reserved-only map, `symbol(-1)` resolves
to position `6` and returns the last reserved symbol without failing. -/
theorem C6_amended_witness :
    (-(((SymbolMap.init []).len : Int)) ≤ -1) ∧ ((-1 : Int) < 0)
    ∧ ∃ s, (SymbolMap.init []).index2symbol.get?
          ((-1 : Int) + ((SymbolMap.init []).len : Int)).toNat = some s
        ∧ (SymbolMap.init []).symbol (-1) = .ok s :=
  ⟨by decide, by decide,
    (C6_amended_symbol_lookup (SymbolMap.init []) (-1)).2.2
      (by decide) (by decide)⟩

end Yoyodyne
